import Mathlib

/-!
# Verification of the gradient-dither core (`src/lib/dithering.js`, `src/lib/gradients.js`)

Shallow embedding conventions:

* JavaScript numbers (IEEE doubles and the `Float32Array` working buffers) are
  modelled as exact rationals `ℚ`; every finite double is a rational, and none
  of the verified properties depends on rounding of intermediate float
  arithmetic.
* `Math.round` rounds half toward positive infinity, which is Mathlib's
  `round` (`round x = ⌊x + 1/2⌋`).
* Storing a number into a `Uint8ClampedArray` clamps to `[0,255]` and rounds
  ties to even (`u8clamp` below).
* A typed-array read at a fractional or out-of-range index yields `undefined`
  (`NaN` once used arithmetically) in JavaScript; such a value can only reach
  the output through a clamped store, which maps it to `0`.  The model returns
  `0` for such reads directly; every theorem below is insensitive to the value
  chosen for these junk reads.
* `Math.random()` is modelled by an explicit oracle `rand : ℕ → ℚ` giving the
  successive samples consumed when filling the noise buffer.
-/

namespace GradientDither

/-- Kernel-computable floor of a rational (`⌊q⌋`, see `ratFloor_eq`). -/
def ratFloor (q : ℚ) : ℤ := q.num / q.den

/-- Kernel-computable ceiling of a rational (`⌈q⌉`, see `ratCeil_eq`). -/
def ratCeil (q : ℚ) : ℤ := -ratFloor (-q)

/-- JS `Math.round`: round half toward positive infinity (Mathlib's `round`,
see `jsRound_eq`). -/
def jsRound (q : ℚ) : ℤ := ratFloor (q + 1/2)

/-- Round to nearest, ties to even — the rounding used when a number is stored
into a `Uint8ClampedArray`. -/
def roundTE (q : ℚ) : ℤ :=
  if q - ratFloor q < 1/2 then ratFloor q
  else if (1:ℚ)/2 < q - ratFloor q then ratFloor q + 1
  else if ratFloor q % 2 = 0 then ratFloor q else ratFloor q + 1

/-- The `ToUint8Clamp` conversion performed by a `Uint8ClampedArray` store:
clamp into `[0,255]`, round ties to even. -/
def u8clamp (q : ℚ) : ℤ :=
  if q ≤ 0 then 0 else if 255 ≤ q then 255 else roundTE q

/-- Truncation toward zero, as used by the JS `%` operator. -/
def ratTrunc (q : ℚ) : ℤ := if 0 ≤ q then ratFloor q else ratCeil q

/-- The JS remainder operator `a % b` (sign follows the dividend). -/
def jsMod (a b : ℚ) : ℚ := a - b * ratTrunc (a / b)

/-- The exact rational value of the double `Math.PI`
(3.141592653589793115997963468544185161590576171875 = 884279719003555 / 2^48). -/
def mathPI : ℚ := 884279719003555 / 281474976710656

/-- `quantize(value, levels)` — dithering.js lines 62-65:
`step = 255/(levels-1); return Math.round(Math.round(value/step)*step)`. -/
def quantize (value : ℚ) (levels : ℕ) : ℚ :=
  let step : ℚ := 255 / ((levels : ℚ) - 1)
  ((jsRound ((jsRound (value / step) : ℚ) * step) : ℤ) : ℚ)

/-- The literal 2×2 Bayer matrix `BAYER_2` (dithering.js lines 6-9). -/
def BAYER_2 : List (List ℕ) := [[0, 2], [3, 1]]

/-- The literal 4×4 Bayer matrix `BAYER_4` (dithering.js lines 11-16). -/
def BAYER_4 : List (List ℕ) :=
  [[0, 8, 2, 10], [12, 4, 14, 6], [3, 11, 1, 9], [15, 7, 13, 5]]

/-- The literal 8×8 Bayer matrix `BAYER_8` (dithering.js lines 18-27). -/
def BAYER_8 : List (List ℕ) :=
  [[0, 32, 8, 40, 2, 34, 10, 42],
   [48, 16, 56, 24, 50, 18, 58, 26],
   [12, 44, 4, 36, 14, 46, 6, 38],
   [60, 28, 52, 20, 62, 30, 54, 22],
   [3, 35, 11, 43, 1, 33, 9, 41],
   [51, 19, 59, 27, 49, 17, 57, 25],
   [15, 47, 7, 39, 13, 45, 5, 37],
   [63, 31, 55, 23, 61, 29, 53, 21]]

/-- `generateBayerMatrix` (dithering.js lines 31-50), with an explicit fuel
argument modelling the recursion depth: the JS function recurses on `size/2`
and only terminates when it reaches the base case `size === 2` (it is only
ever invoked on powers of two; on other inputs it would never return, which
the fuel models by running out). -/
def generateBayerAux : ℕ → ℕ → List (List ℕ)
  | _, 2 => BAYER_2
  | 0, _ => []
  | fuel + 1, size =>
    let half := size / 2
    let smaller := generateBayerAux fuel half
    (List.range size).map fun y =>
      (List.range size).map fun x =>
        let sy := y % half
        let sx := x % half
        let quadrant := (y / half) * 2 + (x / half)
        let offsets : List ℕ := [0, 2, 3, 1]
        4 * ((smaller.getD sy []).getD sx 0) + offsets.getD quadrant 0

/-- `generateBayerMatrix(size)` for the power-of-two sizes on which the source
invokes it; `size` itself is always enough fuel. -/
def generateBayerMatrix (size : ℕ) : List (List ℕ) :=
  generateBayerAux size size

/-- `BAYER_16 = generateBayerMatrix(16)` (dithering.js line 29). -/
def BAYER_16 : List (List ℕ) := generateBayerMatrix 16

/-- The record `{ matrix, size, max }` returned by `getBayerMatrix`. -/
structure BayerInfo where
  matrix : List (List ℕ)
  size : ℕ
  max : ℚ
deriving DecidableEq

/-- `getBayerMatrix(size)` — dithering.js lines 52-57. -/
def getBayerMatrix (size : ℚ) : BayerInfo :=
  if size ≤ 2 then ⟨BAYER_2, 2, 4⟩
  else if size ≤ 4 then ⟨BAYER_4, 4, 16⟩
  else if size ≤ 8 then ⟨BAYER_8, 8, 64⟩
  else ⟨BAYER_16, 16, 256⟩

/-- An RGB triple, as produced by `hexToRgb` (gradients.js lines 8-15): each
channel an integer in `[0,255]` once parsed from a hex string. -/
structure RGB where
  r : ℤ
  g : ℤ
  b : ℤ
deriving DecidableEq

/-- `lerpColors(colors, t)` — gradients.js lines 20-34 — applied to the list
`rgbColors = colors.map(hexToRgb)` of already-parsed RGB triples (the hex
parsing itself carries no arithmetic content).  A negative `segment` would be
an out-of-range JS array read (`undefined`); the model's `getD` default is
never reached for `t ∈ [0,1]` and a list of length ≥ 2. -/
def lerpColors (rgbColors : List RGB) (t : ℚ) : RGB :=
  let segments : ℤ := (rgbColors.length : ℤ) - 1
  let segment : ℤ := min (ratFloor (t * (segments : ℚ))) (segments - 1)
  let localT : ℚ := t * (segments : ℚ) - (segment : ℚ)
  let c1 := rgbColors.getD segment.toNat ⟨0, 0, 0⟩
  let c2 := rgbColors.getD (segment + 1).toNat ⟨0, 0, 0⟩
  ⟨jsRound ((c1.r : ℚ) + ((c2.r : ℚ) - (c1.r : ℚ)) * localT),
   jsRound ((c1.g : ℚ) + ((c2.g : ℚ) - (c1.g : ℚ)) * localT),
   jsRound ((c1.b : ℚ) + ((c2.b : ℚ) - (c1.b : ℚ)) * localT)⟩

/-- The interpolation formula exactly as the specification states it:
`segment = clamp(floor(t*(N-1)), 0, N-2)`, `localT = t*(N-1) - segment`,
channels `round(c1 + (c2 - c1) * localT)`.  Compared against the source's
`lerpColors` (which omits the lower clamp) in the C6 theorem. -/
def lerpColorsClaim (rgbColors : List RGB) (t : ℚ) : RGB :=
  let segments : ℤ := (rgbColors.length : ℤ) - 1
  let segment : ℤ := max 0 (min (ratFloor (t * (segments : ℚ))) (segments - 1))
  let localT : ℚ := t * (segments : ℚ) - (segment : ℚ)
  let c1 := rgbColors.getD segment.toNat ⟨0, 0, 0⟩
  let c2 := rgbColors.getD (segment + 1).toNat ⟨0, 0, 0⟩
  ⟨jsRound ((c1.r : ℚ) + ((c2.r : ℚ) - (c1.r : ℚ)) * localT),
   jsRound ((c1.g : ℚ) + ((c2.g : ℚ) - (c1.g : ℚ)) * localT),
   jsRound ((c1.b : ℚ) + ((c2.b : ℚ) - (c1.b : ℚ)) * localT)⟩

/-- The interpolation position computed per pixel by `createRadialGradient`
(gradients.js lines 52-63).  `dist` stands for the nonnegative
`Math.sqrt(dx*dx + dy*dy)` and `maxDist` for `size * d * 0.5`; the wrapping
arithmetic downstream of them is modelled exactly. -/
def radialT (dist maxDist rotation : ℚ) : ℚ :=
  let t0 : ℚ := min (dist / maxDist) 1
  let rotationOffset : ℚ := jsMod (rotation / (2 * mathPI)) 1
  let t1 : ℚ := jsMod (t0 + rotationOffset) 1
  if t1 < 0 then t1 + 1 else t1

/-- The interpolation position computed per pixel by `createLinearGradient`
(gradients.js lines 97-102).  `proj` stands for the projection
`dx*cos(rotation) + dy*sin(rotation)` and `maxProj` for `size * d * 0.5`. -/
def linearT (proj maxProj : ℚ) : ℚ :=
  max 0 (min 1 ((proj + maxProj) / (2 * maxProj)))

/-- The interpolation position computed per pixel by `createConicGradient`
(gradients.js lines 130-138).  `angle0` stands for `Math.atan2(dy, dx)`. -/
def conicT (angle0 rotation : ℚ) : ℚ :=
  let angle : ℚ := angle0 + rotation
  let t0 : ℚ := (angle + mathPI) / (2 * mathPI)
  let t1 : ℚ := jsMod t0 1
  if t1 < 0 then t1 + 1 else t1

/-- Read a JS typed array at a possibly fractional index: a fractional or
out-of-range index reads `undefined` (`NaN` in arithmetic), which only ever
reaches the 8-bit output through a clamped store mapping it to `0`; the model
therefore returns `0` for such reads. -/
def readQ (l : List ℚ) (i : ℚ) : ℚ :=
  if i.den = 1 ∧ 0 ≤ i.num ∧ i.num.toNat < l.length then l.getD i.num.toNat 0
  else 0

/-- Read a JS typed array at a possibly negative integer index (same junk
convention as `readQ`). -/
def readZ (l : List ℚ) (i : ℤ) : ℚ :=
  if 0 ≤ i ∧ i.toNat < l.length then l.getD i.toNat 0 else 0

/-- `scaled[i] += v` — in the diffusion loops every such write is guarded
in-bounds; `List.set` drops out-of-range writes just as a typed array does. -/
def listAdd (l : List ℚ) (i : ℕ) (v : ℚ) : List ℚ :=
  l.set i (l.getD i 0 + v)

/-- The base index `4 * (y * scaledWidth + x)` of pixel `(x, y)` in the
downsampled working buffer (dithering.js lines 122 and 194). -/
def fsIdx (sw y x : ℕ) : ℕ := 4 * (y * sw + x)

/-- The source index `4 * (srcY * width + srcX)` with `srcX = x * scale`,
`srcY = y * scale`, read during the nearest-neighbor downsample
(dithering.js lines 107-109 and 179-181).  It is a rational: nothing in the
source rounds `scale`, so a fractional `scale` produces fractional indices. -/
def dsSrcIdx (width : ℕ) (scale : ℚ) (y x : ℕ) : ℚ :=
  4 * (((y : ℚ) * scale) * (width : ℚ) + (x : ℚ) * scale)

/-- The source index `4 * (srcY * scaledWidth + srcX)` with
`srcX = min(floor(x / scale), scaledWidth - 1)` (and likewise for `srcY`)
used by the nearest-neighbor upsample shared by both diffusion algorithms
(dithering.js lines 153-155 and 226-228).  `scaledWidth - 1` can be `-1` in
JS when the scaled extent is zero, hence the `ℤ` codomain. -/
def upSrcIdx (sw sh : ℕ) (scale : ℚ) (y x : ℕ) : ℤ :=
  4 * ((min (ratFloor ((y : ℚ) / scale)) ((sh : ℤ) - 1)) * (sw : ℤ)
    + min (ratFloor ((x : ℚ) / scale)) ((sw : ℤ) - 1))

/-- The nearest-neighbor downsample into the `Float32Array` working buffer
(dithering.js lines 103-117 and 175-189): a zero-initialised buffer of length
`scaledWidth * scaledHeight * 4` receiving one RGB sample plus alpha `255`
per downsampled pixel. -/
def scaledInit (pixels : List ℚ) (width : ℕ) (scale : ℚ) (sw sh : ℕ) : List ℚ :=
  (List.range sh).foldl (fun buf y =>
    (List.range sw).foldl (fun buf x =>
      let srcIdx := dsSrcIdx width scale y x
      let dstIdx := fsIdx sw y x
      let buf1 := buf.set dstIdx (readQ pixels srcIdx)
      let buf2 := buf1.set (dstIdx + 1) (readQ pixels (srcIdx + 1))
      let buf3 := buf2.set (dstIdx + 2) (readQ pixels (srcIdx + 2))
      buf3.set (dstIdx + 3) 255) buf) (List.replicate (sw * sh * 4) 0)

/-- One channel step of the Floyd-Steinberg diffusion pass
(dithering.js lines 124-144): quantize the current channel and push the
weighted error into the in-bounds neighbors. -/
def fsDiffuseStep (sw sh : ℕ) (strength : ℚ) (levels : ℕ) (buf : List ℚ)
    (y x c : ℕ) : List ℚ :=
  let idx := fsIdx sw y x
  let oldValue := buf.getD (idx + c) 0
  let newValue := quantize oldValue levels
  let buf1 := buf.set (idx + c) newValue
  let error := (oldValue - newValue) * strength
  let buf2 := if x + 1 < sw then listAdd buf1 (idx + 4 + c) (error * 7 / 16) else buf1
  if y + 1 < sh then
    let buf3 := if 0 < x then listAdd buf2 (idx + sw * 4 - 4 + c) (error * 3 / 16) else buf2
    let buf4 := listAdd buf3 (idx + sw * 4 + c) (error * 5 / 16)
    if x + 1 < sw then listAdd buf4 (idx + sw * 4 + 4 + c) (error * 1 / 16) else buf4
  else buf2

/-- The full Floyd-Steinberg diffusion pass in raster order
(dithering.js lines 120-146). -/
def fsDiffuse (sw sh : ℕ) (strength : ℚ) (levels : ℕ) (buf0 : List ℚ) : List ℚ :=
  (List.range sh).foldl (fun b y =>
    (List.range sw).foldl (fun b x =>
      (List.range 3).foldl (fun b c => fsDiffuseStep sw sh strength levels b y x c) b) b) buf0

/-- One channel step of the Atkinson diffusion pass (dithering.js lines
196-217): only `6/8` of the error is redistributed, `1/8` to each of six
targets. -/
def atkDiffuseStep (sw sh : ℕ) (strength : ℚ) (levels : ℕ) (buf : List ℚ)
    (y x c : ℕ) : List ℚ :=
  let idx := fsIdx sw y x
  let oldValue := buf.getD (idx + c) 0
  let newValue := quantize oldValue levels
  let buf1 := buf.set (idx + c) newValue
  let error := (oldValue - newValue) * strength / 8
  let buf2 := if x + 1 < sw then listAdd buf1 (idx + 4 + c) error else buf1
  let buf3 := if x + 2 < sw then listAdd buf2 (idx + 8 + c) error else buf2
  let buf4 :=
    if y + 1 < sh then
      let b1 := if 0 < x then listAdd buf3 (idx + sw * 4 - 4 + c) error else buf3
      let b2 := listAdd b1 (idx + sw * 4 + c) error
      if x + 1 < sw then listAdd b2 (idx + sw * 4 + 4 + c) error else b2
    else buf3
  if y + 2 < sh then listAdd buf4 (idx + sw * 8 + c) error else buf4

/-- The full Atkinson diffusion pass in raster order
(dithering.js lines 192-219). -/
def atkDiffuse (sw sh : ℕ) (strength : ℚ) (levels : ℕ) (buf0 : List ℚ) : List ℚ :=
  (List.range sh).foldl (fun b y =>
    (List.range sw).foldl (fun b x =>
      (List.range 3).foldl (fun b c => atkDiffuseStep sw sh strength levels b y x c) b) b) buf0

/-- The nearest-neighbor upsample writing the final `Uint8ClampedArray`
(dithering.js lines 149-163 and 222-236), expressed pointwise: output index
`i` decomposes as pixel `i / 4`, channel `i % 4`; pixels beyond
`width * height` keep the constructor's zero fill. -/
def upsample (pixlen width height : ℕ) (scale : ℚ) (sw sh : ℕ)
    (scaled : List ℚ) : List ℤ :=
  (List.range pixlen).map fun i =>
    let p : ℕ := i / 4
    let ch : ℕ := i % 4
    if p < width * height then
      let y := p / width
      let x := p % width
      if ch = 3 then 255
      else u8clamp (max 0 (min 255 (readZ scaled (upSrcIdx sw sh scale y x + (ch : ℤ)))))
    else 0

/-- `floydSteinbergDither(pixels, width, height, strength, scale, colorLevels)`
— dithering.js lines 97-166. -/
def floydSteinbergDither (pixels : List ℚ) (width height : ℕ)
    (strength scale : ℚ) (levels : ℕ) : List ℤ :=
  let sw := (ratFloor ((width : ℚ) / scale)).toNat
  let sh := (ratFloor ((height : ℚ) / scale)).toNat
  let scaled := fsDiffuse sw sh strength levels (scaledInit pixels width scale sw sh)
  upsample pixels.length width height scale sw sh scaled

/-- `atkinsonDither(pixels, width, height, strength, scale, colorLevels)` —
dithering.js lines 171-239. -/
def atkinsonDither (pixels : List ℚ) (width height : ℕ)
    (strength scale : ℚ) (levels : ℕ) : List ℤ :=
  let sw := (ratFloor ((width : ℚ) / scale)).toNat
  let sh := (ratFloor ((height : ℚ) / scale)).toNat
  let scaled := atkDiffuse sw sh strength levels (scaledInit pixels width scale sw sh)
  upsample pixels.length width height scale sw sh scaled

/-- `bayerDither(pixels, width, height, strength, size, colorLevels)` —
dithering.js lines 70-92, expressed pointwise: the output starts as a clamped
copy of `pixels` and the loop overwrites exactly the RGB channels of the
`width * height` raster pixels (alpha is never written). -/
def bayerDither (pixels : List ℚ) (width height : ℕ)
    (strength size : ℚ) (levels : ℕ) : List ℤ :=
  let info := getBayerMatrix size
  (List.range pixels.length).map fun i =>
    let p := i / 4
    if p < width * height ∧ i % 4 < 3 then
      let y := p / width
      let x := p % width
      let mx := x % info.size
      let my := y % info.size
      let threshold : ℚ :=
        (((info.matrix.getD my []).getD mx 0 : ℚ) / info.max - 1/2) * strength * 255
      let value := max 0 (min 255 (pixels.getD i 0 + threshold))
      u8clamp (quantize value levels)
    else u8clamp (pixels.getD i 0)

/-- `randomDither(pixels, width, height, strength, grainSize, colorLevels)` —
dithering.js lines 244-274.  `rand` is the `Math.random()` oracle: `rand i`
is the sample filling `noise[i]`. -/
def randomDither (pixels : List ℚ) (width height : ℕ)
    (strength grainSize : ℚ) (levels : ℕ) (rand : ℕ → ℚ) : List ℤ :=
  let noiseWidth := (ratCeil ((width : ℚ) / grainSize)).toNat
  let noiseHeight := (ratCeil ((height : ℚ) / grainSize)).toNat
  let noise : ℕ → ℚ := fun i => (rand i - 1/2) * strength * 255
  (List.range pixels.length).map fun i =>
    let p := i / 4
    if p < width * height ∧ i % 4 < 3 then
      let y := p / width
      let x := p % width
      let nx := ratFloor ((x : ℚ) / grainSize)
      let ny := ratFloor ((y : ℚ) / grainSize)
      let nidx : ℤ := ny * (noiseWidth : ℤ) + nx
      let noiseVal : ℚ :=
        if 0 ≤ nidx ∧ nidx.toNat < noiseWidth * noiseHeight then noise nidx.toNat else 0
      let value := max 0 (min 255 (pixels.getD i 0 + noiseVal))
      u8clamp (quantize value levels)
    else u8clamp (pixels.getD i 0)

/-- `applyDither(pixels, width, height, algorithm, strength, size, colorLevels)`
— dithering.js lines 279-292.  The unknown-algorithm default
`new Uint8ClampedArray(pixels)` is a fresh clamped copy of the input. -/
def applyDither (pixels : List ℚ) (width height : ℕ) (algorithm : String)
    (strength size : ℚ) (levels : ℕ) (rand : ℕ → ℚ) : List ℤ :=
  if algorithm = "bayer" then
    bayerDither pixels width height strength size levels
  else if algorithm = "floyd-steinberg" then
    floydSteinbergDither pixels width height strength (max 1 size) levels
  else if algorithm = "atkinson" then
    atkinsonDither pixels width height strength (max 1 size) levels
  else if algorithm = "random" then
    randomDither pixels width height strength (max 1 size) levels rand
  else pixels.map u8clamp

/-- `ratFloor` computes `Int.floor`. -/
theorem ratFloor_eq (q : ℚ) : ratFloor q = ⌊q⌋ := (Rat.floor_def).symm

/-- `ratCeil` computes `Int.ceil`. -/
theorem ratCeil_eq (q : ℚ) : ratCeil q = ⌈q⌉ := by
  rw [ratCeil, ratFloor_eq, Int.floor_neg, neg_neg]

/-- `jsRound` computes Mathlib's `round`. -/
theorem jsRound_eq (q : ℚ) : jsRound q = round q := by
  rw [jsRound, ratFloor_eq, round_eq]

/-! ## Helper lemmas -/

/-- `jsRound` is monotone. -/
theorem jsRound_le_jsRound {a b : ℚ} (h : a ≤ b) : jsRound a ≤ jsRound b := by
  rw [jsRound_eq, jsRound_eq, round_eq, round_eq]
  exact Int.floor_le_floor (by linarith)

/-- Ties-to-even rounding lands on the floor or the ceiling. -/
theorem roundTE_bounds (q : ℚ) : ratFloor q ≤ roundTE q ∧ roundTE q ≤ ratFloor q + 1 := by
  unfold roundTE
  split_ifs <;> omega

/-- The value stored by a `Uint8ClampedArray` write is always in `[0, 255]`. -/
theorem u8clamp_range (q : ℚ) : 0 ≤ u8clamp q ∧ u8clamp q ≤ 255 := by
  unfold u8clamp
  split_ifs with h1 h2
  · norm_num
  · norm_num
  · have hb := roundTE_bounds q
    have hf0 : (0 : ℤ) ≤ ratFloor q := by
      rw [ratFloor_eq]
      exact Int.le_floor.mpr (by push_cast; linarith)
    have hf255 : ratFloor q < 255 := by
      rw [ratFloor_eq]
      have hq : (⌊q⌋ : ℚ) ≤ q := Int.floor_le q
      have : (⌊q⌋ : ℚ) < 255 := by linarith
      exact_mod_cast this
    omega

/-- Storing an integer that is already a byte value returns it unchanged. -/
theorem u8clamp_intCast {n : ℤ} (h0 : 0 ≤ n) (h255 : n ≤ 255) :
    u8clamp (n : ℚ) = n := by
  unfold u8clamp
  split_ifs with h1 h2
  · have : n ≤ 0 := by exact_mod_cast h1
    omega
  · have : (255 : ℤ) ≤ n := by exact_mod_cast h2
    omega
  · have hf : ratFloor ((n : ℤ) : ℚ) = n := by
      rw [ratFloor_eq]; exact Int.floor_intCast n
    unfold roundTE
    rw [hf]
    norm_num

/-- Reading a mapped range list below its length evaluates the function. -/
theorem mapRange_getD {α : Type} (f : ℕ → α) (d : α) {i n : ℕ} (h : i < n) :
    ((List.range n).map f).getD i d = f i := by
  rw [List.getD_eq_getElem?_getD, List.getElem?_map, List.getElem?_range h]
  rfl

/-- A raster pixel `(a, b)` with `a < W`, `b < H` has linear index below `W * H`. -/
theorem pix_lt {a b W H : ℕ} (ha : a < W) (hb : b < H) : b * W + a < W * H := by
  have h1 : (b + 1) * W = b * W + W := Nat.succ_mul b W
  have h2 : (b + 1) * W ≤ H * W := Nat.mul_le_mul_right W hb
  have h3 : H * W = W * H := Nat.mul_comm H W
  linarith

/-- `listAdd` preserves length. -/
theorem listAdd_length (l : List ℚ) (i : ℕ) (v : ℚ) :
    (listAdd l i v).length = l.length := by
  simp [listAdd]

/-- Adding at an in-bounds index bumps the value there. -/
theorem listAdd_getD_self {l : List ℚ} {i : ℕ} (h : i < l.length) (v : ℚ) :
    (listAdd l i v).getD i 0 = l.getD i 0 + v := by
  simp [listAdd, List.getD_eq_getElem?_getD, List.getElem?_set_self h]

/-- Adding elsewhere leaves an index unchanged. -/
theorem listAdd_getD_ne {l : List ℚ} {i j : ℕ} (h : i ≠ j) (v : ℚ) :
    (listAdd l i v).getD j 0 = l.getD j 0 := by
  simp [listAdd, List.getD_eq_getElem?_getD, List.getElem?_set_ne h]

/-- Setting elsewhere leaves an index unchanged. -/
theorem set_getD_ne {l : List ℚ} {i j : ℕ} (h : i ≠ j) (v : ℚ) :
    (l.set i v).getD j 0 = l.getD j 0 := by
  simp [List.getD_eq_getElem?_getD, List.getElem?_set_ne h]

/-- The JS remainder by 1 lies strictly between -1 and 1. -/
theorem jsMod_one_bounds (a : ℚ) : -1 < jsMod a 1 ∧ jsMod a 1 < 1 := by
  unfold jsMod ratTrunc
  rw [div_one]
  split_ifs with h
  · rw [ratFloor_eq]
    have h1 : a - ⌊a⌋ < 1 := by
      rw [Int.self_sub_floor]; exact Int.fract_lt_one a
    have h2 := Int.floor_le a
    constructor <;> [linarith; linarith]
  · rw [ratCeil_eq]
    have h1 := Int.le_ceil a
    have h2 := Int.ceil_lt_add_one a
    constructor <;> [linarith; linarith]

/-- Wrapping a value of `(-1, 1)` with `if t < 0 then t + 1 else t` lands in `[0, 1]`. -/
theorem wrap_mem_Icc {t : ℚ} (h1 : -1 < t) (h2 : t < 1) :
    (if t < 0 then t + 1 else t) ∈ Set.Icc (0 : ℚ) 1 := by
  split_ifs with h
  · exact ⟨by linarith, by linarith⟩
  · exact ⟨by linarith, by linarith⟩

/-! ## Claim theorems -/

/-- **C2** (amended): `getBayerMatrix` follows the mapping `size ≤ 2 → 2`,
`≤ 4 → 4`, `≤ 8 → 8`, otherwise `16` (i.e. it snaps *up* to the smallest
supported size at least the request, capped at 16 and with floor 2), and the
returned `max` equals the square of the returned size. -/
theorem claim2_getBayerMatrix_mapping (s : ℚ) :
    (getBayerMatrix s).size =
      (if s ≤ 2 then 2 else if s ≤ 4 then 4 else if s ≤ 8 then 8 else 16)
    ∧ (getBayerMatrix s).max = ((getBayerMatrix s).size : ℚ) ^ 2 := by
  unfold getBayerMatrix
  split_ifs <;> norm_num

/-- **C2 counterexample**: for the request 3 the returned size is 4, which
*exceeds* the request, refuting "the nearest supported size not exceeding the
request". -/
theorem claim2_counterexample :
    (getBayerMatrix 3).size = 4 ∧ ¬((getBayerMatrix 3).size ≤ 3) := by
  have h : getBayerMatrix 3 = ⟨BAYER_4, 4, 16⟩ := by
    unfold getBayerMatrix
    norm_num
  rw [h]
  exact ⟨rfl, by norm_num⟩

set_option maxRecDepth 10000 in
/-- **C5**: for every supported size `N ∈ {2, 4, 8, 16}` the matrix produced by
`generateBayerMatrix N` has `N²` entries and contains each integer in
`[0, N²)` exactly once — its entries are a permutation of `0 .. N²-1`. -/
theorem claim5_bayer_permutation :
    ∀ n ∈ [2, 4, 8, 16], (generateBayerMatrix n).flatten.length = n * n
      ∧ ∀ m < n * n, (generateBayerMatrix n).flatten.count m = 1 := by
  decide

/-- **C5 witness**: the size-16 matrix instance, evaluated at entry 255. -/
theorem claim5_witness :
    16 ∈ [2, 4, 8, 16] ∧ 255 < 16 * 16
      ∧ (generateBayerMatrix 16).flatten.count 255 = 1 := by
  refine ⟨by decide, by decide, ?_⟩
  exact (claim5_bayer_permutation 16 (by decide)).2 255 (by decide)

/-- **C7**: the interpolation position `t` handed to `lerpColors` by the
radial, linear and conic gradient generators always lies in `[0, 1]`, for every
rotation value (arbitrarily large or negative) and every pixel: the rotation
phase is wrapped into a bounded range at the point of use. -/
theorem claim7_gradient_t_bounded :
    (∀ dist maxDist rotation : ℚ, radialT dist maxDist rotation ∈ Set.Icc (0 : ℚ) 1)
    ∧ (∀ proj maxProj : ℚ, linearT proj maxProj ∈ Set.Icc (0 : ℚ) 1)
    ∧ (∀ angle0 rotation : ℚ, conicT angle0 rotation ∈ Set.Icc (0 : ℚ) 1) := by
  refine ⟨fun dist maxDist rotation => ?_, fun proj maxProj => ?_, fun angle0 rotation => ?_⟩
  · unfold radialT
    have h := jsMod_one_bounds (min (dist / maxDist) 1 + jsMod (rotation / (2 * mathPI)) 1)
    exact wrap_mem_Icc h.1 h.2
  · unfold linearT
    constructor
    · exact le_max_left 0 _
    · exact max_le (by norm_num) (min_le_left 1 _)
  · unfold conicT
    have h := jsMod_one_bounds ((angle0 + rotation + mathPI) / (2 * mathPI))
    exact wrap_mem_Icc h.1 h.2

/-- **C8**: the hard-coded tables `BAYER_4` and `BAYER_8` agree entry for entry
with the recursive construction `generateBayerMatrix` from the 2×2 seed: the
literal reference tables and the generator implement the same function. -/
theorem claim8_bayer_literals :
    BAYER_4 = generateBayerMatrix 4 ∧ BAYER_8 = generateBayerMatrix 8 := by
  exact ⟨by decide, by decide⟩

/-- `quantize` unfolded (the `let` is definitional). -/
theorem quantize_eq_jsRound (v : ℚ) (L : ℕ) :
    quantize v L =
      ((jsRound ((jsRound (v / (255 / ((L : ℚ) - 1))) : ℚ) * (255 / ((L : ℚ) - 1)))) : ℚ) :=
  rfl

/-- Rounding the scaled top level recovers 255. -/
theorem jsRound_top_level {L : ℕ} (hL : 2 ≤ L) :
    (jsRound (((L : ℚ) - 1) * (255 / ((L : ℚ) - 1))) : ℚ) = 255 := by
  have hpos : (0 : ℚ) < (L : ℚ) - 1 := by
    have : (2 : ℚ) ≤ (L : ℚ) := by exact_mod_cast hL
    linarith
  have hmul : ((L : ℚ) - 1) * (255 / ((L : ℚ) - 1)) = 255 := by
    rw [mul_comm]
    exact div_mul_cancel₀ 255 (ne_of_gt hpos)
  rw [hmul]
  have h255 : (255 : ℚ) = ((255 : ℤ) : ℚ) := by norm_num
  rw [h255, jsRound_eq, round_intCast]

/-- **C3**: for every `colorLevels L ≥ 2` and channel value `v ∈ [0, 255]`,
`quantize v L` is one of the `L` evenly spaced values
`round(k * 255/(L-1))`, `k = 0 .. L-1`, a set containing both endpoints
(`k = 0` gives `0` and `k = L-1` gives `255`); in particular
`quantize 0 L = 0` and `quantize 255 L = 255`. -/
theorem claim3_quantize_levels (L : ℕ) (hL : 2 ≤ L) :
    (∀ v : ℚ, 0 ≤ v → v ≤ 255 →
      ∃ k : ℕ, k < L ∧ quantize v L = ((jsRound ((k : ℚ) * (255 / ((L : ℚ) - 1)))) : ℚ))
    ∧ quantize 0 L = 0 ∧ quantize 255 L = 255
    ∧ (jsRound ((0 : ℚ) * (255 / ((L : ℚ) - 1))) : ℚ) = 0
    ∧ (jsRound (((L : ℚ) - 1) * (255 / ((L : ℚ) - 1))) : ℚ) = 255 := by
  have hL2 : (2 : ℚ) ≤ (L : ℚ) := by exact_mod_cast hL
  have hpos : (0 : ℚ) < (L : ℚ) - 1 := by linarith
  have hstep_pos : (0 : ℚ) < 255 / ((L : ℚ) - 1) := by positivity
  have hdiv255 : (255 : ℚ) / (255 / ((L : ℚ) - 1)) = (L : ℚ) - 1 := by
    field_simp
  have hzero : jsRound (0 : ℚ) = 0 := by
    rw [jsRound_eq, round_zero]
  have hR : jsRound ((L : ℚ) - 1) = (L : ℤ) - 1 := by
    rw [jsRound_eq, show ((L : ℚ) - 1) = (((L : ℤ) - 1 : ℤ) : ℚ) by push_cast; ring,
      round_intCast]
  refine ⟨?_, ?_, ?_, ?_, jsRound_top_level hL⟩
  · intro v hv0 hv255
    have hnn : 0 ≤ jsRound (v / (255 / ((L : ℚ) - 1))) := by
      calc (0 : ℤ) = jsRound 0 := hzero.symm
      _ ≤ _ := jsRound_le_jsRound (div_nonneg hv0 hstep_pos.le)
    refine ⟨(jsRound (v / (255 / ((L : ℚ) - 1)))).toNat, ?_, ?_⟩
    · have hle : v / (255 / ((L : ℚ) - 1)) ≤ (L : ℚ) - 1 := by
        calc v / (255 / ((L : ℚ) - 1)) ≤ 255 / (255 / ((L : ℚ) - 1)) := by gcongr
        _ = (L : ℚ) - 1 := hdiv255
      have hub := jsRound_le_jsRound hle
      rw [hR] at hub
      omega
    · have harg : (((jsRound (v / (255 / ((L : ℚ) - 1)))).toNat : ℕ) : ℚ)
          = ((jsRound (v / (255 / ((L : ℚ) - 1))) : ℤ) : ℚ) := by
        exact_mod_cast Int.toNat_of_nonneg hnn
      rw [quantize_eq_jsRound, harg]
  · rw [quantize_eq_jsRound, zero_div, hzero]
    norm_num [hzero]
  · rw [quantize_eq_jsRound, hdiv255, hR,
      show (((L : ℤ) - 1 : ℤ) : ℚ) = (L : ℚ) - 1 by push_cast; ring,
      jsRound_top_level hL]
  · rw [zero_mul, hzero]
    norm_num

/-- **C3 witness**: instantiated at `L = 3`, `v = 100`. -/
theorem claim3_witness :
    2 ≤ 3 ∧ (0 : ℚ) ≤ 100 ∧ (100 : ℚ) ≤ 255
      ∧ (∃ k : ℕ, k < 3 ∧ quantize 100 3 = ((jsRound ((k : ℚ) * (255 / ((3 : ℚ) - 1)))) : ℚ)) := by
  exact ⟨by norm_num, by norm_num, by norm_num,
    (claim3_quantize_levels 3 (by norm_num)).1 100 (by norm_num) (by norm_num)⟩

/-- `jsRound` of an integer is that integer. -/
theorem jsRound_intCast (n : ℤ) : jsRound ((n : ℤ) : ℚ) = n := by
  rw [jsRound_eq, round_intCast]

/-- Interpolating with `localT = 1` lands on the second endpoint. -/
theorem jsRound_lin_one (a b : ℤ) :
    jsRound ((a : ℚ) + ((b : ℚ) - (a : ℚ)) * 1) = b := by
  rw [show (a : ℚ) + ((b : ℚ) - (a : ℚ)) * 1 = ((b : ℤ) : ℚ) by ring,
    jsRound_intCast]

/-- Round-tripping a byte buffer through `u8clamp` is the identity. -/
theorem map_u8clamp_id {pixels : List ℚ}
    (hb : ∀ v ∈ pixels, ∃ n : ℕ, n ≤ 255 ∧ v = (n : ℚ)) :
    (pixels.map u8clamp).map (fun z : ℤ => (z : ℚ)) = pixels := by
  induction pixels with
  | nil => rfl
  | cons a l ih =>
    simp only [List.map_cons, List.cons.injEq]
    constructor
    · obtain ⟨n, hn, rfl⟩ := hb a (by simp)
      rw [show ((n : ℕ) : ℚ) = ((n : ℤ) : ℚ) by norm_cast,
        u8clamp_intCast (by positivity) (by exact_mod_cast hn)]
    · exact ih (fun v hv => hb v (by simp [hv]))

/-- **C9**: for every algorithm selector other than the four supported names,
`applyDither` returns a fresh clamped copy of the input — byte-identical to the
input whenever the input is a byte buffer — and (being a copy, not a view) the
input list itself is untouched. -/
theorem claim9_unknown_passthrough (pixels : List ℚ) (w h : ℕ) (alg : String)
    (strength size : ℚ) (levels : ℕ) (rand : ℕ → ℚ)
    (h1 : alg ≠ "bayer") (h2 : alg ≠ "floyd-steinberg")
    (h3 : alg ≠ "atkinson") (h4 : alg ≠ "random") :
    applyDither pixels w h alg strength size levels rand = pixels.map u8clamp
    ∧ ((∀ v ∈ pixels, ∃ n : ℕ, n ≤ 255 ∧ v = (n : ℚ)) →
        (applyDither pixels w h alg strength size levels rand).map (fun z : ℤ => (z : ℚ))
          = pixels) := by
  have hd : applyDither pixels w h alg strength size levels rand = pixels.map u8clamp := by
    simp [applyDither, h1, h2, h3, h4]
  exact ⟨hd, fun hb => by rw [hd]; exact map_u8clamp_id hb⟩

/-- **C9 witness**: the selector `"none"` on a concrete byte buffer. -/
theorem claim9_witness :
    ("none" ≠ "bayer") ∧ ("none" ≠ "floyd-steinberg")
      ∧ ("none" ≠ "atkinson") ∧ ("none" ≠ "random")
      ∧ applyDither [1, 255, 0, 7] 1 1 "none" 0 2 2 (fun _ => 0)
          = ([1, 255, 0, 7] : List ℚ).map u8clamp := by
  refine ⟨by decide, by decide, by decide, by decide, ?_⟩
  exact (claim9_unknown_passthrough [1, 255, 0, 7] 1 1 "none" 0 2 2 (fun _ => 0)
    (by decide) (by decide) (by decide) (by decide)).1

/-- **C6**: for every list of `N ≥ 2` parsed RGB stops and `t ∈ [0, 1]`,
`lerpColors` computes exactly the spec's piecewise-linear formula
(`segment = clamp(floor(t·(N−1)), 0, N−2)`, `localT = t·(N−1) − segment`,
channels rounded); `t = 0` returns the first stop exactly, `t = 1` the last
stop exactly, and with stops `(0,0,0)` and `(255,255,255)`, `t = 1/2` yields
`(128,128,128)`. -/
theorem claim6_lerpColors (colors : List RGB) (t : ℚ)
    (hn : 2 ≤ colors.length) (h0 : 0 ≤ t) (_h1 : t ≤ 1) :
    lerpColors colors t = lerpColorsClaim colors t
    ∧ lerpColors colors 0 = colors.getD 0 ⟨0, 0, 0⟩
    ∧ lerpColors colors 1 = colors.getD (colors.length - 1) ⟨0, 0, 0⟩
    ∧ lerpColors [⟨0, 0, 0⟩, ⟨255, 255, 255⟩] (1/2) = ⟨128, 128, 128⟩ := by
  have hnz : 2 ≤ (colors.length : ℤ) := by exact_mod_cast hn
  have hq : (2 : ℚ) ≤ (colors.length : ℚ) := by exact_mod_cast hn
  refine ⟨?_, ?_, ?_, ?_⟩
  · have hmin : (0 : ℤ) ≤ min (ratFloor (t * (((colors.length : ℤ) - 1 : ℤ) : ℚ)))
        ((colors.length : ℤ) - 1 - 1) := by
      apply le_min
      · rw [ratFloor_eq]
        refine Int.le_floor.mpr ?_
        push_cast
        exact mul_nonneg h0 (by linarith)
      · omega
    simp only [lerpColors, lerpColorsClaim]
    rw [max_eq_right hmin]
  · simp only [lerpColors]
    have hf0 : ratFloor (0 * (((colors.length : ℤ) - 1 : ℤ) : ℚ)) = 0 := by
      rw [zero_mul, ratFloor_eq, Int.floor_zero]
    rw [hf0, min_eq_left (by omega : (0 : ℤ) ≤ (colors.length : ℤ) - 1 - 1)]
    simp [jsRound_intCast]
  · simp only [lerpColors]
    have hf1 : ratFloor (1 * (((colors.length : ℤ) - 1 : ℤ) : ℚ)) = (colors.length : ℤ) - 1 := by
      rw [one_mul, ratFloor_eq, Int.floor_intCast]
    rw [hf1, min_eq_right (by omega : (colors.length : ℤ) - 1 - 1 ≤ (colors.length : ℤ) - 1)]
    have hlocal : 1 * (((colors.length : ℤ) - 1 : ℤ) : ℚ)
        - (((colors.length : ℤ) - 1 - 1 : ℤ) : ℚ) = 1 := by
      push_cast
      ring
    rw [hlocal, jsRound_lin_one, jsRound_lin_one, jsRound_lin_one]
    have hidx : ((colors.length : ℤ) - 1 - 1 + 1).toNat = colors.length - 1 := by omega
    rw [hidx]
  · simp only [lerpColors]
    have hf : ratFloor ((1 : ℚ) / 2) = 0 := by
      rw [ratFloor_eq]
      norm_num [Int.floor_eq_iff]
    have h128 : jsRound ((255 : ℚ) * (1 / 2)) = 128 := by
      rw [jsRound_eq, round_eq]
      norm_num [Int.floor_eq_iff]
    have h128a : jsRound ((255 : ℚ) / 2) = 128 := by
      rw [show (255 : ℚ) / 2 = 255 * (1 / 2) by norm_num]
      exact h128
    have h128b : jsRound ((255 : ℚ) * 2⁻¹) = 128 := by
      rw [show (255 : ℚ) * 2⁻¹ = 255 * (1 / 2) by norm_num]
      exact h128
    norm_num [hf, h128, h128a, h128b]

/-- A pixel base index with channel offset stays below the buffer length. -/
theorem idx_chan_lt {k N c : ℕ} (hk : k < N) (hc : c < 3) :
    4 * k + c < 4 * N := by
  linarith

/-- `Math.floor` of a ratio of naturals computes natural division. -/
theorem ratFloor_nat_div (a b : ℕ) :
    ratFloor ((a : ℚ) / (b : ℚ)) = ((a / b : ℕ) : ℤ) := by
  rw [ratFloor_eq, show ((a : ℕ) : ℚ) = (((a : ℤ)) : ℚ) by norm_cast,
    Rat.floor_intCast_div_natCast, Int.natCast_div]

/-- **C10**: with `width, height ≥ 1`, a positive *integer* scale and both
scaled extents at least 1, every array index computed by the diffusion
algorithms is an in-bounds integer index of the buffer it addresses: the
downsample source index is a natural number fitting the input (only because
the scale is an integer), every diffusion neighbor target guarded by the
source's bounds checks fits the working buffer, and the upsample source index
is nonnegative and fits the working buffer. -/
theorem claim10_indices_in_bounds (w h n sw sh : ℕ) (pixels : List ℚ)
    (_hw : 1 ≤ w) (_hh : 1 ≤ h) (hn : 1 ≤ n)
    (hsw : sw = (ratFloor ((w : ℚ) / (n : ℚ))).toNat)
    (hsh : sh = (ratFloor ((h : ℚ) / (n : ℚ))).toNat)
    (hsw1 : 1 ≤ sw) (hsh1 : 1 ≤ sh)
    (hlen : pixels.length = 4 * (w * h)) :
    (∀ y x, y < sh → x < sw →
      ∃ m : ℕ, dsSrcIdx w (n : ℚ) y x = (m : ℚ) ∧ m + 2 < pixels.length
        ∧ fsIdx sw y x + 3 < 4 * (sw * sh))
    ∧ (∀ y x c, y < sh → x < sw → c < 3 →
        fsIdx sw y x + c < 4 * (sw * sh)
        ∧ (x + 1 < sw → fsIdx sw y x + 4 + c < 4 * (sw * sh))
        ∧ (x + 2 < sw → fsIdx sw y x + 8 + c < 4 * (sw * sh))
        ∧ (0 < x → y + 1 < sh → fsIdx sw y x + sw * 4 - 4 + c < 4 * (sw * sh))
        ∧ (y + 1 < sh → fsIdx sw y x + sw * 4 + c < 4 * (sw * sh))
        ∧ (x + 1 < sw → y + 1 < sh → fsIdx sw y x + sw * 4 + 4 + c < 4 * (sw * sh))
        ∧ (y + 2 < sh → fsIdx sw y x + sw * 8 + c < 4 * (sw * sh)))
    ∧ (∀ y x, y < h → x < w →
        0 ≤ upSrcIdx sw sh (n : ℚ) y x
        ∧ (upSrcIdx sw sh (n : ℚ) y x).toNat + 2 < 4 * (sw * sh)) := by
  have hswd : sw = w / n := by rw [hsw, ratFloor_nat_div, Int.toNat_ofNat]
  have hshd : sh = h / n := by rw [hsh, ratFloor_nat_div, Int.toNat_ofNat]
  have hxw : ∀ x, x < sw → x * n + n ≤ w := by
    intro x hx
    have h1 : x + 1 ≤ w / n := by omega
    have h2 : (x + 1) * n ≤ (w / n) * n := Nat.mul_le_mul_right n h1
    have h3 : (w / n) * n ≤ w := Nat.div_mul_le_self w n
    have h4 : (x + 1) * n = x * n + n := Nat.succ_mul x n
    linarith
  have hyh : ∀ y, y < sh → y * n + n ≤ h := by
    intro y hy
    have h1 : y + 1 ≤ h / n := by omega
    have h2 : (y + 1) * n ≤ (h / n) * n := Nat.mul_le_mul_right n h1
    have h3 : (h / n) * n ≤ h := Nat.div_mul_le_self h n
    have h4 : (y + 1) * n = y * n + n := Nat.succ_mul y n
    linarith
  refine ⟨?_, ?_, ?_⟩
  · intro y x hy hx
    refine ⟨4 * ((y * n) * w + x * n), ?_, ?_, ?_⟩
    · unfold dsSrcIdx
      push_cast
      ring
    · rw [hlen]
      have hp := pix_lt (show x * n < w by have := hxw x hx; omega)
        (show y * n < h by have := hyh y hy; omega)
      linarith
    · unfold fsIdx
      have hp := pix_lt hx hy
      linarith
  · intro y x c hy hx hc
    unfold fsIdx
    have hbase := pix_lt hx hy
    refine ⟨by linarith, ?_, ?_, ?_, ?_, ?_, ?_⟩
    · intro hx1
      have hp := pix_lt hx1 hy
      linarith
    · intro hx2
      have hp := pix_lt hx2 hy
      linarith
    · intro hx0 hy1
      obtain ⟨x', rfl⟩ : ∃ x', x = x' + 1 := ⟨x - 1, by omega⟩
      have hp := pix_lt (show x' < sw by omega) hy1
      have hd : (y + 1) * sw = y * sw + sw := Nat.succ_mul y sw
      rw [hd] at hp
      rw [show 4 * (y * sw + (x' + 1)) + sw * 4 = (4 * (y * sw) + 4 * x' + sw * 4) + 4 from by
        ring, Nat.add_sub_cancel]
      linarith
    · intro hy1
      have hp := pix_lt hx hy1
      have hd : (y + 1) * sw = y * sw + sw := Nat.succ_mul y sw
      rw [hd] at hp
      linarith
    · intro hx1 hy1
      have hp := pix_lt hx1 hy1
      have hd : (y + 1) * sw = y * sw + sw := Nat.succ_mul y sw
      rw [hd] at hp
      linarith
    · intro hy2
      have hp := pix_lt hx hy2
      have hd : (y + 2) * sw = y * sw + 2 * sw := Nat.add_mul y 2 sw
      rw [hd] at hp
      linarith
  · intro y x hy hx
    unfold upSrcIdx
    rw [ratFloor_nat_div, ratFloor_nat_div,
      show ((sw : ℤ) - 1) = ((sw - 1 : ℕ) : ℤ) by omega,
      show ((sh : ℤ) - 1) = ((sh - 1 : ℕ) : ℤ) by omega,
      ← Nat.cast_min, ← Nat.cast_min]
    have hcast : (4 : ℤ) * ((((min (y / n) (sh - 1) : ℕ)) : ℤ) * (sw : ℤ)
        + (((min (x / n) (sw - 1) : ℕ)) : ℤ))
        = ((4 * ((min (y / n) (sh - 1)) * sw + (min (x / n) (sw - 1))) : ℕ) : ℤ) := by
      push_cast
      ring
    rw [hcast]
    constructor
    · exact Int.natCast_nonneg _
    · rw [Int.toNat_ofNat]
      have hp := pix_lt (show min (x / n) (sw - 1) < sw by
          have := min_le_right (x / n) (sw - 1); omega)
        (show min (y / n) (sh - 1) < sh by
          have := min_le_right (y / n) (sh - 1); omega)
      linarith

/-- **C10 witness**: a 2×2 buffer with integer scale 1. -/
theorem claim10_witness :
    (2 : ℕ) = (ratFloor (((2 : ℕ) : ℚ) / ((1 : ℕ) : ℚ))).toNat
      ∧ (List.replicate 16 (0 : ℚ)).length = 4 * (2 * 2)
      ∧ (∀ y x, y < 2 → x < 2 →
          ∃ m : ℕ, dsSrcIdx 2 ((1 : ℕ) : ℚ) y x = (m : ℚ)
            ∧ m + 2 < (List.replicate 16 (0 : ℚ)).length
            ∧ fsIdx 2 y x + 3 < 4 * (2 * 2)) := by
  have he : (2 : ℕ) = (ratFloor (((2 : ℕ) : ℚ) / ((1 : ℕ) : ℚ))).toNat := by
    rw [ratFloor_nat_div, Int.toNat_ofNat]
  have hl : (List.replicate 16 (0 : ℚ)).length = 4 * (2 * 2) := by
    simp
  exact ⟨he, hl,
    (claim10_indices_in_bounds 2 2 1 2 2 (List.replicate 16 (0 : ℚ))
      (by norm_num) (by norm_num) (by norm_num) he he (by norm_num) (by norm_num) hl).1⟩

/-- **C4**: for a working-buffer pixel whose listed neighbor targets are all
in-bounds, one Floyd-Steinberg channel step adds exactly
`error·7/16, 3/16, 5/16, 1/16` (east, south-west, south, south-east) with
`error = (original − quantized)·strength`, totalling
`strength·(original − quantized)`; one Atkinson channel step adds
`error = (original − quantized)·strength/8` to each of its six targets,
totalling `6/8·strength·(original − quantized)`; and every target lies
strictly later in raster order (not yet visited). -/
theorem claim4_diffusion_error_totals (sw sh : ℕ) (strength : ℚ) (levels : ℕ)
    (buf : List ℚ) (y x c : ℕ) (hbuf : buf.length = 4 * (sw * sh)) :
    ((x + 1 < sw → 0 < x → y + 1 < sh → c < 3 →
      ((fsDiffuseStep sw sh strength levels buf y x c).getD (fsIdx sw y x + 4 + c) 0
          - buf.getD (fsIdx sw y x + 4 + c) 0
        = (buf.getD (fsIdx sw y x + c) 0
            - quantize (buf.getD (fsIdx sw y x + c) 0) levels) * strength * 7 / 16)
      ∧ ((fsDiffuseStep sw sh strength levels buf y x c).getD (fsIdx sw y x + sw * 4 - 4 + c) 0
          - buf.getD (fsIdx sw y x + sw * 4 - 4 + c) 0
        = (buf.getD (fsIdx sw y x + c) 0
            - quantize (buf.getD (fsIdx sw y x + c) 0) levels) * strength * 3 / 16)
      ∧ ((fsDiffuseStep sw sh strength levels buf y x c).getD (fsIdx sw y x + sw * 4 + c) 0
          - buf.getD (fsIdx sw y x + sw * 4 + c) 0
        = (buf.getD (fsIdx sw y x + c) 0
            - quantize (buf.getD (fsIdx sw y x + c) 0) levels) * strength * 5 / 16)
      ∧ ((fsDiffuseStep sw sh strength levels buf y x c).getD (fsIdx sw y x + sw * 4 + 4 + c) 0
          - buf.getD (fsIdx sw y x + sw * 4 + 4 + c) 0
        = (buf.getD (fsIdx sw y x + c) 0
            - quantize (buf.getD (fsIdx sw y x + c) 0) levels) * strength * 1 / 16)
      ∧ ((fsDiffuseStep sw sh strength levels buf y x c).getD (fsIdx sw y x + 4 + c) 0
          - buf.getD (fsIdx sw y x + 4 + c) 0
         + ((fsDiffuseStep sw sh strength levels buf y x c).getD (fsIdx sw y x + sw * 4 - 4 + c) 0
          - buf.getD (fsIdx sw y x + sw * 4 - 4 + c) 0)
         + ((fsDiffuseStep sw sh strength levels buf y x c).getD (fsIdx sw y x + sw * 4 + c) 0
          - buf.getD (fsIdx sw y x + sw * 4 + c) 0)
         + ((fsDiffuseStep sw sh strength levels buf y x c).getD (fsIdx sw y x + sw * 4 + 4 + c) 0
          - buf.getD (fsIdx sw y x + sw * 4 + 4 + c) 0)
        = strength * (buf.getD (fsIdx sw y x + c) 0
            - quantize (buf.getD (fsIdx sw y x + c) 0) levels))
      ∧ (y * sw + (x + 1) > y * sw + x ∧ (y + 1) * sw + (x - 1) > y * sw + x
         ∧ (y + 1) * sw + x > y * sw + x ∧ (y + 1) * sw + (x + 1) > y * sw + x))
    ∧ (x + 2 < sw → 0 < x → y + 2 < sh → c < 3 →
      ((atkDiffuseStep sw sh strength levels buf y x c).getD (fsIdx sw y x + 4 + c) 0
          - buf.getD (fsIdx sw y x + 4 + c) 0
        = (buf.getD (fsIdx sw y x + c) 0
            - quantize (buf.getD (fsIdx sw y x + c) 0) levels) * strength / 8)
      ∧ ((atkDiffuseStep sw sh strength levels buf y x c).getD (fsIdx sw y x + 8 + c) 0
          - buf.getD (fsIdx sw y x + 8 + c) 0
        = (buf.getD (fsIdx sw y x + c) 0
            - quantize (buf.getD (fsIdx sw y x + c) 0) levels) * strength / 8)
      ∧ ((atkDiffuseStep sw sh strength levels buf y x c).getD (fsIdx sw y x + sw * 4 - 4 + c) 0
          - buf.getD (fsIdx sw y x + sw * 4 - 4 + c) 0
        = (buf.getD (fsIdx sw y x + c) 0
            - quantize (buf.getD (fsIdx sw y x + c) 0) levels) * strength / 8)
      ∧ ((atkDiffuseStep sw sh strength levels buf y x c).getD (fsIdx sw y x + sw * 4 + c) 0
          - buf.getD (fsIdx sw y x + sw * 4 + c) 0
        = (buf.getD (fsIdx sw y x + c) 0
            - quantize (buf.getD (fsIdx sw y x + c) 0) levels) * strength / 8)
      ∧ ((atkDiffuseStep sw sh strength levels buf y x c).getD (fsIdx sw y x + sw * 4 + 4 + c) 0
          - buf.getD (fsIdx sw y x + sw * 4 + 4 + c) 0
        = (buf.getD (fsIdx sw y x + c) 0
            - quantize (buf.getD (fsIdx sw y x + c) 0) levels) * strength / 8)
      ∧ ((atkDiffuseStep sw sh strength levels buf y x c).getD (fsIdx sw y x + sw * 8 + c) 0
          - buf.getD (fsIdx sw y x + sw * 8 + c) 0
        = (buf.getD (fsIdx sw y x + c) 0
            - quantize (buf.getD (fsIdx sw y x + c) 0) levels) * strength / 8)
      ∧ ((atkDiffuseStep sw sh strength levels buf y x c).getD (fsIdx sw y x + 4 + c) 0
          - buf.getD (fsIdx sw y x + 4 + c) 0
         + ((atkDiffuseStep sw sh strength levels buf y x c).getD (fsIdx sw y x + 8 + c) 0
          - buf.getD (fsIdx sw y x + 8 + c) 0)
         + ((atkDiffuseStep sw sh strength levels buf y x c).getD (fsIdx sw y x + sw * 4 - 4 + c) 0
          - buf.getD (fsIdx sw y x + sw * 4 - 4 + c) 0)
         + ((atkDiffuseStep sw sh strength levels buf y x c).getD (fsIdx sw y x + sw * 4 + c) 0
          - buf.getD (fsIdx sw y x + sw * 4 + c) 0)
         + ((atkDiffuseStep sw sh strength levels buf y x c).getD (fsIdx sw y x + sw * 4 + 4 + c) 0
          - buf.getD (fsIdx sw y x + sw * 4 + 4 + c) 0)
         + ((atkDiffuseStep sw sh strength levels buf y x c).getD (fsIdx sw y x + sw * 8 + c) 0
          - buf.getD (fsIdx sw y x + sw * 8 + c) 0)
        = 6 / 8 * strength * (buf.getD (fsIdx sw y x + c) 0
            - quantize (buf.getD (fsIdx sw y x + c) 0) levels))
      ∧ (y * sw + (x + 2) > y * sw + x ∧ (y + 2) * sw + x > y * sw + x))) := by
  constructor
  · intro hx1 hx0 hy1 hc
    have hy : y < sh := by omega
    have hsw3 : 3 ≤ sw := by omega
    have hd1 : (y + 1) * sw = y * sw + sw := Nat.succ_mul y sw
    have hb0 : fsIdx sw y x + c < buf.length := by
      rw [hbuf]; unfold fsIdx
      have hp := pix_lt (show x < sw by omega) hy
      linarith
    have hb1 : fsIdx sw y x + 4 + c < buf.length := by
      rw [hbuf]; unfold fsIdx
      have hp := pix_lt hx1 hy
      linarith
    have hb2 : fsIdx sw y x + sw * 4 - 4 + c < buf.length := by
      rw [hbuf]; unfold fsIdx
      obtain ⟨x', hx'⟩ : ∃ x', x = x' + 1 := ⟨x - 1, by omega⟩
      subst hx'
      have hp := pix_lt (show x' < sw by omega) hy1
      rw [hd1] at hp
      rw [show 4 * (y * sw + (x' + 1)) + sw * 4 = (4 * (y * sw) + 4 * x' + sw * 4) + 4 from by
        ring, Nat.add_sub_cancel]
      linarith
    have hb3 : fsIdx sw y x + sw * 4 + c < buf.length := by
      rw [hbuf]; unfold fsIdx
      have hp := pix_lt (show x < sw by omega) hy1
      rw [hd1] at hp
      linarith
    have hb4 : fsIdx sw y x + sw * 4 + 4 + c < buf.length := by
      rw [hbuf]; unfold fsIdx
      have hp := pix_lt hx1 hy1
      rw [hd1] at hp
      linarith
    have hraster : y * sw + (x + 1) > y * sw + x ∧ (y + 1) * sw + (x - 1) > y * sw + x
        ∧ (y + 1) * sw + x > y * sw + x ∧ (y + 1) * sw + (x + 1) > y * sw + x := by
      refine ⟨by omega, ?_, ?_, ?_⟩ <;> rw [hd1] <;> omega
    simp only [fsDiffuseStep, hx1, hx0, hy1, ite_true, if_true]
    generalize hk : fsIdx sw y x = k at hb0 hb1 hb2 hb3 hb4 ⊢
    obtain ⟨n01, n02, n03, n04, n12, n21, n13, n31, n14, n41, n23, n32, n24, n42, n34, n43⟩ :
        (k + c ≠ k + 4 + c) ∧ (k + c ≠ k + sw * 4 - 4 + c) ∧ (k + c ≠ k + sw * 4 + c)
        ∧ (k + c ≠ k + sw * 4 + 4 + c)
        ∧ (k + 4 + c ≠ k + sw * 4 - 4 + c) ∧ (k + sw * 4 - 4 + c ≠ k + 4 + c)
        ∧ (k + 4 + c ≠ k + sw * 4 + c) ∧ (k + sw * 4 + c ≠ k + 4 + c)
        ∧ (k + 4 + c ≠ k + sw * 4 + 4 + c) ∧ (k + sw * 4 + 4 + c ≠ k + 4 + c)
        ∧ (k + sw * 4 - 4 + c ≠ k + sw * 4 + c) ∧ (k + sw * 4 + c ≠ k + sw * 4 - 4 + c)
        ∧ (k + sw * 4 - 4 + c ≠ k + sw * 4 + 4 + c)
        ∧ (k + sw * 4 + 4 + c ≠ k + sw * 4 - 4 + c)
        ∧ (k + sw * 4 + c ≠ k + sw * 4 + 4 + c)
        ∧ (k + sw * 4 + 4 + c ≠ k + sw * 4 + c) := by
      omega
    simp only [listAdd_getD_self, listAdd_getD_ne, set_getD_ne, listAdd_length,
      List.length_set, hb0, hb1, hb2, hb3, hb4,
      n01, n02, n03, n04, n12, n21, n13, n31, n14, n41, n23, n32, n24, n42, n34, n43,
      ne_eq, not_false_eq_true]
    exact ⟨by ring, by ring, by ring, by ring, by ring, hraster⟩
  · intro hx2 hx0 hy2 hc
    have hy : y < sh := by omega
    have hy1 : y + 1 < sh := by omega
    have hx1 : x + 1 < sw := by omega
    have hsw4 : 4 ≤ sw := by omega
    have hd1 : (y + 1) * sw = y * sw + sw := Nat.succ_mul y sw
    have hd2 : (y + 2) * sw = y * sw + 2 * sw := Nat.add_mul y 2 sw
    have hb0 : fsIdx sw y x + c < buf.length := by
      rw [hbuf]; unfold fsIdx
      have hp := pix_lt (show x < sw by omega) hy
      linarith
    have hb1 : fsIdx sw y x + 4 + c < buf.length := by
      rw [hbuf]; unfold fsIdx
      have hp := pix_lt hx1 hy
      linarith
    have hb2 : fsIdx sw y x + 8 + c < buf.length := by
      rw [hbuf]; unfold fsIdx
      have hp := pix_lt hx2 hy
      linarith
    have hb3 : fsIdx sw y x + sw * 4 - 4 + c < buf.length := by
      rw [hbuf]; unfold fsIdx
      obtain ⟨x', hx'⟩ : ∃ x', x = x' + 1 := ⟨x - 1, by omega⟩
      subst hx'
      have hp := pix_lt (show x' < sw by omega) hy1
      rw [hd1] at hp
      rw [show 4 * (y * sw + (x' + 1)) + sw * 4 = (4 * (y * sw) + 4 * x' + sw * 4) + 4 from by
        ring, Nat.add_sub_cancel]
      linarith
    have hb4 : fsIdx sw y x + sw * 4 + c < buf.length := by
      rw [hbuf]; unfold fsIdx
      have hp := pix_lt (show x < sw by omega) hy1
      rw [hd1] at hp
      linarith
    have hb5 : fsIdx sw y x + sw * 4 + 4 + c < buf.length := by
      rw [hbuf]; unfold fsIdx
      have hp := pix_lt hx1 hy1
      rw [hd1] at hp
      linarith
    have hb6 : fsIdx sw y x + sw * 8 + c < buf.length := by
      rw [hbuf]; unfold fsIdx
      have hp := pix_lt (show x < sw by omega) hy2
      rw [hd2] at hp
      linarith
    have hraster : y * sw + (x + 2) > y * sw + x ∧ (y + 2) * sw + x > y * sw + x := by
      refine ⟨by omega, ?_⟩
      rw [hd2]
      have : 1 ≤ sw := by omega
      omega
    simp only [atkDiffuseStep, hx1, hx2, hx0, hy1, hy2, ite_true, if_true]
    generalize hk : fsIdx sw y x = k at hb0 hb1 hb2 hb3 hb4 hb5 hb6 ⊢
    obtain ⟨m01, m02, m03, m04, m05, m06⟩ :
        (k + c ≠ k + 4 + c) ∧ (k + c ≠ k + 8 + c) ∧ (k + c ≠ k + sw * 4 - 4 + c)
        ∧ (k + c ≠ k + sw * 4 + c) ∧ (k + c ≠ k + sw * 4 + 4 + c)
        ∧ (k + c ≠ k + sw * 8 + c) := by
      omega
    obtain ⟨m12, m21, m13, m31, m14, m41, m15, m51, m16, m61⟩ :
        (k + 4 + c ≠ k + 8 + c) ∧ (k + 8 + c ≠ k + 4 + c)
        ∧ (k + 4 + c ≠ k + sw * 4 - 4 + c) ∧ (k + sw * 4 - 4 + c ≠ k + 4 + c)
        ∧ (k + 4 + c ≠ k + sw * 4 + c) ∧ (k + sw * 4 + c ≠ k + 4 + c)
        ∧ (k + 4 + c ≠ k + sw * 4 + 4 + c) ∧ (k + sw * 4 + 4 + c ≠ k + 4 + c)
        ∧ (k + 4 + c ≠ k + sw * 8 + c) ∧ (k + sw * 8 + c ≠ k + 4 + c) := by
      omega
    obtain ⟨m23, m32, m24, m42, m25, m52, m26, m62⟩ :
        (k + 8 + c ≠ k + sw * 4 - 4 + c) ∧ (k + sw * 4 - 4 + c ≠ k + 8 + c)
        ∧ (k + 8 + c ≠ k + sw * 4 + c) ∧ (k + sw * 4 + c ≠ k + 8 + c)
        ∧ (k + 8 + c ≠ k + sw * 4 + 4 + c) ∧ (k + sw * 4 + 4 + c ≠ k + 8 + c)
        ∧ (k + 8 + c ≠ k + sw * 8 + c) ∧ (k + sw * 8 + c ≠ k + 8 + c) := by
      omega
    obtain ⟨m34, m43, m35, m53, m36, m63, m45, m54, m46, m64, m56, m65⟩ :
        (k + sw * 4 - 4 + c ≠ k + sw * 4 + c) ∧ (k + sw * 4 + c ≠ k + sw * 4 - 4 + c)
        ∧ (k + sw * 4 - 4 + c ≠ k + sw * 4 + 4 + c)
        ∧ (k + sw * 4 + 4 + c ≠ k + sw * 4 - 4 + c)
        ∧ (k + sw * 4 - 4 + c ≠ k + sw * 8 + c) ∧ (k + sw * 8 + c ≠ k + sw * 4 - 4 + c)
        ∧ (k + sw * 4 + c ≠ k + sw * 4 + 4 + c) ∧ (k + sw * 4 + 4 + c ≠ k + sw * 4 + c)
        ∧ (k + sw * 4 + c ≠ k + sw * 8 + c) ∧ (k + sw * 8 + c ≠ k + sw * 4 + c)
        ∧ (k + sw * 4 + 4 + c ≠ k + sw * 8 + c) ∧ (k + sw * 8 + c ≠ k + sw * 4 + 4 + c) := by
      omega
    simp only [listAdd_getD_self, listAdd_getD_ne, set_getD_ne, listAdd_length,
      List.length_set, hb0, hb1, hb2, hb3, hb4, hb5, hb6,
      m01, m02, m03, m04, m05, m06,
      m12, m21, m13, m31, m14, m41, m15, m51, m16, m61,
      m23, m32, m24, m42, m25, m52, m26, m62,
      m34, m43, m35, m53, m36, m63, m45, m54, m46, m64, m56, m65,
      ne_eq, not_false_eq_true]
    exact ⟨by ring, by ring, by ring, by ring, by ring, by ring, by ring, hraster⟩

/-- **C4 witness**: one Floyd-Steinberg delta and one Atkinson delta on a
concrete 5×5 zero working buffer at pixel (1,1), channel 0. -/
theorem claim4_witness :
    (List.replicate 100 (0 : ℚ)).length = 4 * (5 * 5)
    ∧ (1 : ℕ) + 1 < 5 ∧ 0 < (1 : ℕ) ∧ (1 : ℕ) + 2 < 5 ∧ (0 : ℕ) < 3
    ∧ ((fsDiffuseStep 5 5 16 2 (List.replicate 100 0) 1 1 0).getD (fsIdx 5 1 1 + 4 + 0) 0
        - (List.replicate 100 (0 : ℚ)).getD (fsIdx 5 1 1 + 4 + 0) 0
      = ((List.replicate 100 (0 : ℚ)).getD (fsIdx 5 1 1 + 0) 0
          - quantize ((List.replicate 100 (0 : ℚ)).getD (fsIdx 5 1 1 + 0) 0) 2)
          * 16 * 7 / 16)
    ∧ ((atkDiffuseStep 5 5 16 2 (List.replicate 100 0) 1 1 0).getD (fsIdx 5 1 1 + 4 + 0) 0
        - (List.replicate 100 (0 : ℚ)).getD (fsIdx 5 1 1 + 4 + 0) 0
      = ((List.replicate 100 (0 : ℚ)).getD (fsIdx 5 1 1 + 0) 0
          - quantize ((List.replicate 100 (0 : ℚ)).getD (fsIdx 5 1 1 + 0) 0) 2)
          * 16 / 8) := by
  have H := claim4_diffusion_error_totals 5 5 16 2 (List.replicate 100 0) 1 1 0 (by simp)
  exact ⟨by simp, by norm_num, by norm_num, by norm_num, by norm_num,
    (H.1 (by norm_num) (by norm_num) (by norm_num) (by norm_num)).1,
    (H.2 (by norm_num) (by norm_num) (by norm_num) (by norm_num)).1⟩

/-- `u8clamp` fixes the byte value 255. -/
theorem u8clamp_255 : u8clamp (255 : ℚ) = 255 := by
  rw [show (255 : ℚ) = ((255 : ℤ) : ℚ) by norm_num]
  exact u8clamp_intCast (by norm_num) (by norm_num)

/-- Shape facts for the shared upsample stage: length, byte range, alpha. -/
theorem upsample_facts (pixlen w h : ℕ) (scale : ℚ) (sw sh : ℕ) (scaled : List ℚ) :
    (upsample pixlen w h scale sw sh scaled).length = pixlen
    ∧ (∀ e ∈ upsample pixlen w h scale sw sh scaled, 0 ≤ e ∧ e ≤ 255)
    ∧ (∀ i, i < pixlen → i / 4 < w * h → i % 4 = 3 →
        (upsample pixlen w h scale sw sh scaled).getD i 0 = 255) := by
  refine ⟨by simp [upsample], ?_, ?_⟩
  · intro e he
    simp only [upsample, List.mem_map] at he
    obtain ⟨i, hi, rfl⟩ := he
    split_ifs
    · norm_num
    · exact u8clamp_range _
    · norm_num
  · intro i hi hp hch
    rw [upsample, mapRange_getD _ _ hi]
    dsimp only
    rw [if_pos hp, if_pos hch]

/-- Shape facts for `bayerDither`: length, byte range, alpha copied. -/
theorem bayerDither_facts (pixels : List ℚ) (w h : ℕ) (strength size : ℚ) (levels : ℕ) :
    (bayerDither pixels w h strength size levels).length = pixels.length
    ∧ (∀ e ∈ bayerDither pixels w h strength size levels, 0 ≤ e ∧ e ≤ 255)
    ∧ (∀ i, i < pixels.length → i % 4 = 3 →
        (bayerDither pixels w h strength size levels).getD i 0 = u8clamp (pixels.getD i 0)) := by
  refine ⟨by simp [bayerDither], ?_, ?_⟩
  · intro e he
    simp only [bayerDither, List.mem_map] at he
    obtain ⟨i, hi, rfl⟩ := he
    split_ifs
    · exact u8clamp_range _
    · exact u8clamp_range _
  · intro i hi hch
    rw [bayerDither, mapRange_getD _ _ hi]
    dsimp only
    rw [if_neg (by omega : ¬(i / 4 < w * h ∧ i % 4 < 3))]

/-- Shape facts for `randomDither`: length, byte range, alpha copied. -/
theorem randomDither_facts (pixels : List ℚ) (w h : ℕ) (strength grain : ℚ)
    (levels : ℕ) (rand : ℕ → ℚ) :
    (randomDither pixels w h strength grain levels rand).length = pixels.length
    ∧ (∀ e ∈ randomDither pixels w h strength grain levels rand, 0 ≤ e ∧ e ≤ 255)
    ∧ (∀ i, i < pixels.length → i % 4 = 3 →
        (randomDither pixels w h strength grain levels rand).getD i 0
          = u8clamp (pixels.getD i 0)) := by
  refine ⟨by simp [randomDither], ?_, ?_⟩
  · intro e he
    simp only [randomDither, List.mem_map] at he
    obtain ⟨i, hi, rfl⟩ := he
    split_ifs <;> exact u8clamp_range _
  · intro i hi hch
    rw [randomDither, mapRange_getD _ _ hi]
    dsimp only
    rw [if_neg (by omega : ¬(i / 4 < w * h ∧ i % 4 < 3))]

/-- Shape facts for `floydSteinbergDither`: length, byte range, alpha = 255. -/
theorem floydSteinbergDither_facts (pixels : List ℚ) (w h : ℕ) (strength scale : ℚ)
    (levels : ℕ) (hlen : pixels.length = 4 * (w * h)) :
    (floydSteinbergDither pixels w h strength scale levels).length = pixels.length
    ∧ (∀ e ∈ floydSteinbergDither pixels w h strength scale levels, 0 ≤ e ∧ e ≤ 255)
    ∧ (∀ i, i < pixels.length → i % 4 = 3 →
        (floydSteinbergDither pixels w h strength scale levels).getD i 0 = 255) := by
  have hu := upsample_facts pixels.length w h scale
    ((ratFloor ((w : ℚ) / scale)).toNat) ((ratFloor ((h : ℚ) / scale)).toNat)
    (fsDiffuse ((ratFloor ((w : ℚ) / scale)).toNat) ((ratFloor ((h : ℚ) / scale)).toNat)
      strength levels
      (scaledInit pixels w scale ((ratFloor ((w : ℚ) / scale)).toNat)
        ((ratFloor ((h : ℚ) / scale)).toNat)))
  exact ⟨hu.1, hu.2.1, fun i hi hch => hu.2.2 i hi (by omega) hch⟩

/-- Shape facts for `atkinsonDither`: length, byte range, alpha = 255. -/
theorem atkinsonDither_facts (pixels : List ℚ) (w h : ℕ) (strength scale : ℚ)
    (levels : ℕ) (hlen : pixels.length = 4 * (w * h)) :
    (atkinsonDither pixels w h strength scale levels).length = pixels.length
    ∧ (∀ e ∈ atkinsonDither pixels w h strength scale levels, 0 ≤ e ∧ e ≤ 255)
    ∧ (∀ i, i < pixels.length → i % 4 = 3 →
        (atkinsonDither pixels w h strength scale levels).getD i 0 = 255) := by
  have hu := upsample_facts pixels.length w h scale
    ((ratFloor ((w : ℚ) / scale)).toNat) ((ratFloor ((h : ℚ) / scale)).toNat)
    (atkDiffuse ((ratFloor ((w : ℚ) / scale)).toNat) ((ratFloor ((h : ℚ) / scale)).toNat)
      strength levels
      (scaledInit pixels w scale ((ratFloor ((w : ℚ) / scale)).toNat)
        ((ratFloor ((h : ℚ) / scale)).toNat)))
  exact ⟨hu.1, hu.2.1, fun i hi hch => hu.2.2 i hi (by omega) hch⟩

/-- **C1** (amended): for every RGBA input buffer and every supported
algorithm, strength, size and `colorLevels`, the `applyDither` output has the
input's length and all samples in `[0, 255]`; the alpha samples are 255 for
the diffusion algorithms (`floyd-steinberg`, `atkinson`), while for `bayer`
and `random` the alpha samples are copied from the input — hence 255 exactly
when the input's alpha samples are 255 (the claim's unconditional `alpha=255`
fails for those two, see the counterexample). -/
theorem claim1_dither_output (pixels : List ℚ) (w h : ℕ) (alg : String)
    (strength size : ℚ) (levels : ℕ) (rand : ℕ → ℚ)
    (hlen : pixels.length = 4 * (w * h))
    (halg : alg = "bayer" ∨ alg = "floyd-steinberg" ∨ alg = "atkinson" ∨ alg = "random") :
    (applyDither pixels w h alg strength size levels rand).length = pixels.length
    ∧ (∀ e ∈ applyDither pixels w h alg strength size levels rand, 0 ≤ e ∧ e ≤ 255)
    ∧ ((alg = "floyd-steinberg" ∨ alg = "atkinson") →
        ∀ i, i < pixels.length → i % 4 = 3 →
          (applyDither pixels w h alg strength size levels rand).getD i 0 = 255)
    ∧ ((alg = "bayer" ∨ alg = "random") →
        (∀ i, i < pixels.length → i % 4 = 3 → pixels.getD i 0 = 255) →
        ∀ i, i < pixels.length → i % 4 = 3 →
          (applyDither pixels w h alg strength size levels rand).getD i 0 = 255) := by
  rcases halg with h | h | h | h <;> subst h
  · have happ : applyDither pixels w h "bayer" strength size levels rand
        = bayerDither pixels w h strength size levels := by
      simp [applyDither]
    have hf := bayerDither_facts pixels w h strength size levels
    rw [happ]
    refine ⟨hf.1, hf.2.1, ?_, ?_⟩
    · intro hbad
      rcases hbad with hbad | hbad <;> simp at hbad
    · intro _ hal i hi hch
      rw [hf.2.2 i hi hch, hal i hi hch, u8clamp_255]
  · have happ : applyDither pixels w h "floyd-steinberg" strength size levels rand
        = floydSteinbergDither pixels w h strength (max 1 size) levels := by
      simp [applyDither]
    have hf := floydSteinbergDither_facts pixels w h strength (max 1 size) levels hlen
    rw [happ]
    refine ⟨hf.1, hf.2.1, fun _ => hf.2.2, ?_⟩
    · intro hbad
      rcases hbad with hbad | hbad <;> simp at hbad
  · have happ : applyDither pixels w h "atkinson" strength size levels rand
        = atkinsonDither pixels w h strength (max 1 size) levels := by
      simp [applyDither]
    have hf := atkinsonDither_facts pixels w h strength (max 1 size) levels hlen
    rw [happ]
    refine ⟨hf.1, hf.2.1, fun _ => hf.2.2, ?_⟩
    · intro hbad
      rcases hbad with hbad | hbad <;> simp at hbad
  · have happ : applyDither pixels w h "random" strength size levels rand
        = randomDither pixels w h strength (max 1 size) levels rand := by
      simp [applyDither]
    have hf := randomDither_facts pixels w h strength (max 1 size) levels rand
    rw [happ]
    refine ⟨hf.1, hf.2.1, ?_, ?_⟩
    · intro hbad
      rcases hbad with hbad | hbad <;> simp at hbad
    · intro _ hal i hi hch
      rw [hf.2.2 i hi hch, hal i hi hch, u8clamp_255]

/-- **C1 witness**: a 1×1 all-value-255 buffer under `bayer`. -/
theorem claim1_witness :
    ([255, 255, 255, 255] : List ℚ).length = 4 * (1 * 1)
    ∧ ("bayer" = "bayer" ∨ "bayer" = "floyd-steinberg" ∨ "bayer" = "atkinson"
        ∨ "bayer" = "random")
    ∧ (applyDither [255, 255, 255, 255] 1 1 "bayer" 0 2 2 (fun _ => 0)).length
        = ([255, 255, 255, 255] : List ℚ).length
    ∧ (∀ e ∈ applyDither [255, 255, 255, 255] 1 1 "bayer" 0 2 2 (fun _ => 0),
        0 ≤ e ∧ e ≤ 255) := by
  have H := claim1_dither_output [255, 255, 255, 255] 1 1 "bayer" 0 2 2 (fun _ => 0)
    (by simp) (Or.inl rfl)
  exact ⟨by simp, Or.inl rfl, H.1, H.2.1⟩

/-- **C1 counterexample**: under `bayer`, an input with alpha 0 yields an
output whose alpha sample is 0, not 255 — the output alpha is copied from the
input, refuting the unconditional `alpha = 255` claim. -/
theorem claim1_counterexample :
    (applyDither [0, 0, 0, 0] 1 1 "bayer" 0 2 2 (fun _ => 0)).getD 3 0 = 0
    ∧ ((0 : ℤ) ≠ 255) := by
  have happ : applyDither [0, 0, 0, 0] 1 1 "bayer" 0 2 2 (fun _ => 0)
      = bayerDither [0, 0, 0, 0] 1 1 0 2 2 := by
    simp [applyDither]
  have hf := (bayerDither_facts [0, 0, 0, 0] 1 1 0 2 2).2.2 3 (by simp) (by norm_num)
  rw [happ, hf]
  constructor
  · rw [show (([0, 0, 0, 0] : List ℚ).getD 3 0) = 0 from rfl]
    rw [show u8clamp 0 = 0 from by unfold u8clamp; norm_num]
  · norm_num

/-- **C6 witness**: two stops black and white at `t = 1/2`. -/
theorem claim6_witness :
    2 ≤ ([⟨0, 0, 0⟩, ⟨255, 255, 255⟩] : List RGB).length
    ∧ (0 : ℚ) ≤ 1 / 2 ∧ (1 / 2 : ℚ) ≤ 1
    ∧ lerpColors [⟨0, 0, 0⟩, ⟨255, 255, 255⟩] (1 / 2)
        = lerpColorsClaim [⟨0, 0, 0⟩, ⟨255, 255, 255⟩] (1 / 2)
    ∧ lerpColors [⟨0, 0, 0⟩, ⟨255, 255, 255⟩] (1 / 2) = ⟨128, 128, 128⟩ := by
  have H := claim6_lerpColors [⟨0, 0, 0⟩, ⟨255, 255, 255⟩] (1 / 2)
    (by decide) (by norm_num) (by norm_num)
  exact ⟨by decide, by norm_num, by norm_num, H.1, H.2.2.2⟩

end GradientDither
